import Mathlib

/-!
Verification of the computation layer of a small admin tool (dashboard,
events, inventory, goals, cash drawer). Each definition below is a shallow
embedding of the corresponding function in the TypeScript source; monetary
amounts and counts are modelled as rationals, machine dates as integer day
offsets.
-/

/-! ## Cash drawer (src/pages/CashDrawer.tsx) -/

/-- A value read from a denomination-count record at some key. In the source
the record is a Record of strings: a key may be missing, bound to the empty
string, bound to a string whose numeric parse succeeds with value q, or bound
to a non-numeric string whose parse yields NaN. -/
inductive CountEntry where
  | absent : CountEntry
  | emptyStr : CountEntry
  | numeric (q : ℚ) : CountEntry
  | nonNumeric : CountEntry
deriving DecidableEq

/-- Embeds the source expression Number(counts[key] || "0"): a missing key and
the empty string are falsy, so the string "0" is parsed instead; a non-numeric
string parses to NaN, modelled as none. -/
def entryNum : CountEntry → Option ℚ
  | .absent => some 0
  | .emptyStr => some 0
  | .numeric q => some q
  | .nonNumeric => none

/-- A denomination: display label and face value, as in the DENOMS constant. -/
structure Denom where
  label : String
  value : ℕ
deriving DecidableEq

/-- The fixed denomination list of the cash drawer screen. -/
def DENOMS : List Denom :=
  [⟨"$100", 100⟩, ⟨"$50", 50⟩, ⟨"$20", 20⟩, ⟨"$10", 10⟩, ⟨"$5", 5⟩, ⟨"$1", 1⟩]

/-- The body of the reduce in computeTotal: read the count at the key
d.value.toString(), skip it if it parsed to NaN, otherwise add count times
face value. -/
def totalStep (counts : String → CountEntry) (sum : ℚ) (d : Denom) : ℚ :=
  match entryNum (counts (toString d.value)) with
  | none => sum
  | some num => sum + num * (d.value : ℚ)

/-- computeTotal from CashDrawer.tsx: reduce over DENOMS starting from 0. -/
def computeTotal (counts : String → CountEntry) : ℚ :=
  DENOMS.foldl (totalStep counts) 0

/-- The net-cash expression of the cash drawer form (line 70 of the source):
closing total minus opening total minus stall fee minus payouts. -/
def netCash (openingCounts closingCounts : String → CountEntry)
    (fee payouts : ℚ) : ℚ :=
  computeTotal closingCounts - computeTotal openingCounts - fee - payouts

/-- A stored cash session row, as selected from the cash_sessions table. -/
structure CashSession where
  id : String
  date : String
  opening_total : ℚ
  closing_total : ℚ
  stall_fee : ℚ
  payouts : ℚ
  notes : Option String

/-- The per-row net re-derived for display in the recent-sessions table
(lines 521 to 525 of the source). -/
def sessionNet (s : CashSession) : ℚ :=
  s.closing_total - s.opening_total - s.stall_fee - s.payouts

/-- The numeric contribution of one entry: its parsed value, with missing,
empty and non-numeric entries contributing 0. -/
def countOf : CountEntry → ℚ
  | .numeric q => q
  | _ => 0

/-- Modelled from the spec wording, for comparison with computeTotal: the sum
over the six fixed denominations of count times face value, treating missing,
empty or non-numeric entries as 0. -/
def specTotal (counts : String → CountEntry) : ℚ :=
  (([100, 50, 20, 10, 5, 1] : List ℕ).map
    (fun v : ℕ => countOf (counts (toString v)) * (v : ℚ))).sum

lemma totalStep_eq (counts : String → CountEntry) (s : ℚ) (d : Denom) :
    totalStep counts s d = s + countOf (counts (toString d.value)) * (d.value : ℚ) := by
  cases h : counts (toString d.value) <;> simp [totalStep, entryNum, countOf, h]

lemma foldl_totalStep (counts : String → CountEntry) :
    ∀ (ds : List Denom) (s : ℚ),
      ds.foldl (totalStep counts) s
        = s + (ds.map (fun d => countOf (counts (toString d.value)) * (d.value : ℚ))).sum
  | [], s => by simp
  | d :: ds, s => by
      rw [List.foldl_cons, totalStep_eq, foldl_totalStep counts ds]
      simp [add_assoc]

lemma computeTotal_eq_sum (counts : String → CountEntry) :
    computeTotal counts
      = (DENOMS.map (fun d => countOf (counts (toString d.value)) * (d.value : ℚ))).sum := by
  rw [computeTotal, foldl_totalStep]
  simp

lemma denomKey100 : toString (100 : ℕ) = "100" := rfl
lemma denomKey50 : toString (50 : ℕ) = "50" := rfl
lemma denomKey20 : toString (20 : ℕ) = "20" := rfl
lemma denomKey10 : toString (10 : ℕ) = "10" := rfl
lemma denomKey5 : toString (5 : ℕ) = "5" := rfl
lemma denomKey1 : toString (1 : ℕ) = "1" := rfl

/-- Opening counts of spec Example 2: two fives, everything else missing. -/
def exOpeningCounts : String → CountEntry :=
  fun k => if k = "5" then .numeric 2 else .absent

/-- Closing counts of spec Example 2: three tens, everything else missing. -/
def exClosingCounts : String → CountEntry :=
  fun k => if k = "10" then .numeric 3 else .absent

/-- C1: netCash equals closing total minus opening total minus fee minus
payouts for every input; the Example 2 instance evaluates to 15; and the
stored-session display re-derives net from the same four components by the
same formula. -/
theorem netCash_spec :
    (∀ (oc cc : String → CountEntry) (fee payouts : ℚ),
        netCash oc cc fee payouts
          = computeTotal cc - computeTotal oc - fee - payouts)
    ∧ netCash exOpeningCounts exClosingCounts 2 3 = 15
    ∧ (∀ s : CashSession,
        sessionNet s = s.closing_total - s.opening_total - s.stall_fee - s.payouts) := by
  refine ⟨fun oc cc fee payouts => rfl, ?_, fun s => rfl⟩
  have ho : computeTotal exOpeningCounts = 10 := by
    rw [computeTotal_eq_sum]
    simp [DENOMS, exOpeningCounts, countOf, denomKey100, denomKey50, denomKey20,
      denomKey10, denomKey5, denomKey1]
    norm_num
  have hc : computeTotal exClosingCounts = 30 := by
    rw [computeTotal_eq_sum]
    simp [DENOMS, exClosingCounts, countOf, denomKey100, denomKey50, denomKey20,
      denomKey10, denomKey5, denomKey1]
    norm_num
  show computeTotal exClosingCounts - computeTotal exOpeningCounts - 2 - 3 = 15
  rw [ho, hc]
  norm_num

/-- Counts of spec Example 1: one hundred, two twenties, five ones. -/
def exTotalCounts : String → CountEntry :=
  fun k =>
    if k = "100" then .numeric 1
    else if k = "20" then .numeric 2
    else if k = "1" then .numeric 5
    else .absent

/-- C2: computeTotal equals the sum over the six fixed denominations of count
times face value, with missing, empty and non-numeric entries contributing 0;
the Example 1 instance evaluates to 145. -/
theorem computeTotal_spec :
    (∀ counts : String → CountEntry, computeTotal counts = specTotal counts)
    ∧ computeTotal exTotalCounts = 145 := by
  constructor
  · intro counts
    rw [computeTotal_eq_sum, specTotal]
    simp [DENOMS]
  · rw [computeTotal_eq_sum]
    simp [DENOMS, exTotalCounts, countOf, denomKey100, denomKey50, denomKey20,
      denomKey10, denomKey5, denomKey1]
    norm_num

/-- A count record whose entry at key "1" parses to a negative number. -/
def exNegCounts : String → CountEntry :=
  fun k => if k = "1" then .numeric (-5) else .absent

/-- C3 counterexample: a mapping whose entry at key "1" is the user-entered
string "-5" makes computeTotal negative, so the claim that the total is
non-negative for every mapping fails. -/
theorem computeTotal_neg_counterexample :
    computeTotal exNegCounts = -5 ∧ ¬ (0 ≤ computeTotal exNegCounts) := by
  have hv : computeTotal exNegCounts = -5 := by
    rw [computeTotal_eq_sum]
    simp [DENOMS, exNegCounts, countOf, denomKey100, denomKey50, denomKey20,
      denomKey10, denomKey5, denomKey1]
  refine ⟨hv, ?_⟩
  rw [hv]
  norm_num

/-- An entry is non-negative when it is missing, empty, non-numeric, or
parses to a value that is at least 0. -/
def entryNonneg : CountEntry → Prop
  | .numeric q => 0 ≤ q
  | _ => True

lemma countOf_nonneg : ∀ e : CountEntry, entryNonneg e → 0 ≤ countOf e
  | .numeric _, h => h
  | .absent, _ => le_refl 0
  | .emptyStr, _ => le_refl 0
  | .nonNumeric, _ => le_refl 0

/-- C3 amended: computeTotal is non-negative for every mapping none of whose
entries parses to a negative number; entries parsing to negative numbers can
make the total negative. -/
theorem computeTotal_nonneg (counts : String → CountEntry)
    (h : ∀ k, entryNonneg (counts k)) : 0 ≤ computeTotal counts := by
  rw [computeTotal_eq_sum]
  apply List.sum_nonneg
  intro x hx
  obtain ⟨d, _, rfl⟩ := List.mem_map.mp hx
  exact mul_nonneg (countOf_nonneg _ (h _)) (by positivity)

theorem computeTotal_nonneg_witness :
    0 ≤ computeTotal (fun _ => CountEntry.absent) :=
  computeTotal_nonneg (fun _ => CountEntry.absent) (fun _ => True.intro)

/-- Counts that place a numeric entry under a key that is not one of the six
denomination keys. -/
def exStrayCounts : String → CountEntry :=
  fun k => if k = "7" then .numeric 9 else .absent

/-- Counts with every key missing. -/
def exEmptyCounts : String → CountEntry := fun _ => .absent

/-- C9: computeTotal reads only the entries at the six denomination keys, so
any two mappings that agree on those keys produce the same total. -/
theorem computeTotal_depends_only_on_denom_keys
    (c1 c2 : String → CountEntry)
    (h : ∀ k ∈ ["100", "50", "20", "10", "5", "1"], c1 k = c2 k) :
    computeTotal c1 = computeTotal c2 := by
  have h100 := h "100" (by simp)
  have h50 := h "50" (by simp)
  have h20 := h "20" (by simp)
  have h10 := h "10" (by simp)
  have h5 := h "5" (by simp)
  have h1 := h "1" (by simp)
  rw [computeTotal_eq_sum, computeTotal_eq_sum]
  simp only [DENOMS, List.map_cons, List.map_nil]
  rw [show toString (100 : ℕ) = "100" from rfl, show toString (50 : ℕ) = "50" from rfl,
    show toString (20 : ℕ) = "20" from rfl, show toString (10 : ℕ) = "10" from rfl,
    show toString (5 : ℕ) = "5" from rfl, show toString (1 : ℕ) = "1" from rfl,
    h100, h50, h20, h10, h5, h1]

theorem computeTotal_key_independence_witness :
    computeTotal exStrayCounts = computeTotal exEmptyCounts :=
  computeTotal_depends_only_on_denom_keys exStrayCounts exEmptyCounts (by decide)

/-! ## Inventory (src/pages/Inventory.tsx, dashboard isLow) -/

/-- An inventory row as selected from the inventory_items table. Quantities
are modelled as integers; the data model calls them non-negative, which the
C10 theorem treats as an invariant rather than a type-level restriction. -/
structure InventoryItem where
  id : String
  name : String
  category : String
  unit : String
  quantity : ℤ
  reorder_threshold : ℤ
  notes : Option String
deriving DecidableEq

/-- isLow, defined identically on the dashboard and the inventory page:
threshold strictly positive and quantity at most the threshold. -/
def isLow (item : InventoryItem) : Bool :=
  decide (item.reorder_threshold > 0) && decide (item.quantity ≤ item.reorder_threshold)

/-- C4: isLow holds exactly when the reorder threshold is positive and the
quantity is at or below it; in particular a zero threshold disables the alert
regardless of quantity. -/
theorem isLow_spec (item : InventoryItem) :
    (isLow item = true ↔
      0 < item.reorder_threshold ∧ item.quantity ≤ item.reorder_threshold)
    ∧ (item.reorder_threshold = 0 → isLow item = false) := by
  constructor
  · simp [isLow]
  · intro h
    simp [isLow, h]

/-- An item with zero threshold and low (even negative) quantity. -/
def exZeroThresholdItem : InventoryItem :=
  { id := "i1", name := "beans", category := "beans", unit := "lb",
    quantity := -3, reorder_threshold := 0, notes := none }

theorem isLow_zero_threshold_witness : isLow exZeroThresholdItem = false :=
  (isLow_spec exZeroThresholdItem).2 rfl

/-- adjustQuantity from the inventory page: clamp the new quantity at zero,
send it to the store, and write the same value into the local list at the
matching id. The first component is the value of the store update, the second
the new local list. -/
def adjustQuantity (items : List InventoryItem) (item : InventoryItem)
    (delta : ℤ) : ℤ × List InventoryItem :=
  let newQty := max 0 (item.quantity + delta)
  (newQty,
    items.map (fun i => if i.id = item.id then { i with quantity := newQty } else i))

/-- C10: every quick adjustment writes max(0, quantity + delta) both to the
store and locally, so the adjusted quantity is never negative and a list of
non-negative quantities stays non-negative. -/
theorem adjustQuantity_clamps (items : List InventoryItem)
    (item : InventoryItem) (delta : ℤ)
    (h : ∀ i ∈ items, 0 ≤ i.quantity) :
    (adjustQuantity items item delta).1 = max 0 (item.quantity + delta)
    ∧ 0 ≤ (adjustQuantity items item delta).1
    ∧ ∀ i ∈ (adjustQuantity items item delta).2, 0 ≤ i.quantity := by
  refine ⟨rfl, le_max_left _ _, ?_⟩
  intro i hi
  simp only [adjustQuantity, List.mem_map] at hi
  obtain ⟨j, hj, hji⟩ := hi
  by_cases hid : j.id = item.id
  · rw [if_pos hid] at hji
    rw [← hji]
    exact le_max_left _ _
  · rw [if_neg hid] at hji
    rw [← hji]
    exact h j hj

/-- An item at quantity zero, used to exercise the clamp with delta -1. -/
def exZeroQtyItem : InventoryItem :=
  { id := "i2", name := "milk", category := "milk", unit := "gal",
    quantity := 0, reorder_threshold := 2, notes := none }

theorem adjustQuantity_clamps_witness :
    (adjustQuantity [exZeroQtyItem] exZeroQtyItem (-1)).1
        = max 0 (exZeroQtyItem.quantity + -1)
    ∧ 0 ≤ (adjustQuantity [exZeroQtyItem] exZeroQtyItem (-1)).1
    ∧ ∀ i ∈ (adjustQuantity [exZeroQtyItem] exZeroQtyItem (-1)).2, 0 ≤ i.quantity :=
  adjustQuantity_clamps [exZeroQtyItem] exZeroQtyItem (-1) (by decide)

/-! ## Events (src/pages/Dashboard.tsx eventCounts, NewEvent handleSubmit) -/

/-- An event row as selected by the dashboard; type and status are nullable
columns. -/
structure Event where
  id : String
  title : String
  date : String
  type : Option String
  status : Option String
  location : Option String
deriving DecidableEq

/-- The running tally object of the dashboard eventCounts computation. -/
structure EventTally where
  total : ℕ
  market : ℕ
  popup : ℕ
  catering : ℕ
  booked : ℕ
deriving DecidableEq

/-- The body of the for-loop in eventCounts: four independent conditional
increments, one per tracked type plus the booked status. -/
def tallyStep (c : EventTally) (e : Event) : EventTally :=
  { total := c.total
    market := if e.type = some "market" then c.market + 1 else c.market
    popup := if e.type = some "popup" then c.popup + 1 else c.popup
    catering := if e.type = some "catering" then c.catering + 1 else c.catering
    booked := if e.status = some "booked" then c.booked + 1 else c.booked }

/-- eventCounts from the dashboard: total is the list length, the four
counters start at zero and are incremented by the loop. -/
def eventCounts (events : List Event) : EventTally :=
  events.foldl tallyStep
    { total := events.length, market := 0, popup := 0, catering := 0, booked := 0 }

/-- The event type enum of the data model, from the EVENT_TYPES constant of
the new-event form. -/
def EVENT_TYPE_VALUES : List String :=
  ["market", "wedding", "corporate", "private", "popup", "other"]

/-- Decides whether an event's type column is null or one of the enum
values. -/
def typeInEnum (e : Event) : Bool :=
  match e.type with
  | none => true
  | some t => EVENT_TYPE_VALUES.contains t

lemma foldl_tally_total (es : List Event) (c : EventTally) :
    (es.foldl tallyStep c).total = c.total := by
  induction es generalizing c with
  | nil => rfl
  | cons e es ih =>
      rw [List.foldl_cons, ih]
      rfl

lemma foldl_tally_market (es : List Event) (c : EventTally) :
    (es.foldl tallyStep c).market
      = c.market + es.countP (fun e => decide (e.type = some "market")) := by
  induction es generalizing c with
  | nil => simp
  | cons e es ih =>
      rw [List.foldl_cons, ih, List.countP_cons]
      simp only [tallyStep]
      split <;> rename_i h <;> simp [h] <;> omega

lemma foldl_tally_popup (es : List Event) (c : EventTally) :
    (es.foldl tallyStep c).popup
      = c.popup + es.countP (fun e => decide (e.type = some "popup")) := by
  induction es generalizing c with
  | nil => simp
  | cons e es ih =>
      rw [List.foldl_cons, ih, List.countP_cons]
      simp only [tallyStep]
      split <;> rename_i h <;> simp [h] <;> omega

lemma foldl_tally_catering (es : List Event) (c : EventTally) :
    (es.foldl tallyStep c).catering
      = c.catering + es.countP (fun e => decide (e.type = some "catering")) := by
  induction es generalizing c with
  | nil => simp
  | cons e es ih =>
      rw [List.foldl_cons, ih, List.countP_cons]
      simp only [tallyStep]
      split <;> rename_i h <;> simp [h] <;> omega

lemma foldl_tally_booked (es : List Event) (c : EventTally) :
    (es.foldl tallyStep c).booked
      = c.booked + es.countP (fun e => decide (e.status = some "booked")) := by
  induction es generalizing c with
  | nil => simp
  | cons e es ih =>
      rw [List.foldl_cons, ih, List.countP_cons]
      simp only [tallyStep]
      split <;> rename_i h <;> simp [h] <;> omega

/-- C7: eventCounts tallies the total number of events, the number of each of
the types market, popup and catering, and the number with status booked; and
since catering is not among the data model's type enum values, the catering
counter is zero whenever every event's type respects the enum. -/
theorem eventCounts_spec (events : List Event) :
    (eventCounts events).total = events.length
    ∧ (eventCounts events).market
        = events.countP (fun e => decide (e.type = some "market"))
    ∧ (eventCounts events).popup
        = events.countP (fun e => decide (e.type = some "popup"))
    ∧ (eventCounts events).catering
        = events.countP (fun e => decide (e.type = some "catering"))
    ∧ (eventCounts events).booked
        = events.countP (fun e => decide (e.status = some "booked"))
    ∧ ((∀ e ∈ events, typeInEnum e = true) → (eventCounts events).catering = 0) := by
  refine ⟨foldl_tally_total events _,
    by rw [eventCounts, foldl_tally_market]; simp,
    by rw [eventCounts, foldl_tally_popup]; simp,
    by rw [eventCounts, foldl_tally_catering]; simp,
    by rw [eventCounts, foldl_tally_booked]; simp, ?_⟩
  intro henum
  rw [eventCounts, foldl_tally_catering]
  simp only [Nat.zero_add]
  rw [List.countP_eq_zero]
  intro e he
  have ht := henum e he
  simp only [decide_eq_true_eq]
  intro hc
  rw [typeInEnum, hc] at ht
  simp [EVENT_TYPE_VALUES] at ht

/-- A small concrete event list: one market booking and one event with null
type and status. -/
def exEvents : List Event :=
  [{ id := "e1", title := "westside", date := "2025-06-01",
     type := some "market", status := some "booked", location := none },
   { id := "e2", title := "tbd", date := "2025-06-02",
     type := none, status := none, location := none }]

theorem eventCounts_spec_witness : (eventCounts exEvents).catering = 0 :=
  (eventCounts_spec exEvents).2.2.2.2.2 (by decide)

/-- The non-date fields of the new-event form, after the trim-or-null
cleaning of the client fields and notes. -/
structure EventForm where
  title : String
  location : String
  type : String
  client_name : Option String
  client_email : Option String
  client_phone : Option String
  status : String
  notes : Option String
deriving DecidableEq

/-- A row inserted into the events table by the new-event form. Dates are
modelled as integer day offsets; the source's addDays operates on calendar
dates at day granularity. -/
structure NewEventRow where
  title : String
  date : ℤ
  location : String
  type : String
  client_name : Option String
  client_email : Option String
  client_phone : Option String
  status : String
  notes : Option String
deriving DecidableEq

/-- addDays from NewEvent: shift a date by a number of days. -/
def addDays (date days : ℤ) : ℤ := date + days

/-- One inserted row: all fields from the form, the date as supplied. -/
def mkRow (f : EventForm) (date : ℤ) : NewEventRow :=
  { title := f.title, date := date, location := f.location, type := f.type,
    client_name := f.client_name, client_email := f.client_email,
    client_phone := f.client_phone, status := f.status, notes := f.notes }

/-- The batch built by handleSubmit in NewEvent. In the recurring branch the
source computes totalWeeks as Math.max(1, weeks || 1) (the falsy values 0 and
NaN are modelled as 0) and pushes one row per loop index i with date
addDays(baseDate, i * 7); otherwise it pushes the single base row. -/
def eventsToInsert (isRecurring : Bool) (weeks : ℤ) (baseDate : ℤ)
    (f : EventForm) : List NewEventRow :=
  if isRecurring then
    (List.range (max 1 (if weeks = 0 then 1 else weeks)).toNat).map
      (fun i : ℕ => mkRow f (addDays baseDate ((i : ℤ) * 7)))
  else
    [mkRow f baseDate]

/-- C8: a recurring submission with week count at least 1 inserts exactly that
many rows, and the row at index i is the base row with its date shifted by
exactly 7 times i days, so all rows agree on every field except date and are
spaced seven days apart starting at the base date. -/
theorem recurring_batch_spec (weeks baseDate : ℤ) (f : EventForm)
    (h : 1 ≤ weeks) :
    (eventsToInsert true weeks baseDate f).length = weeks.toNat
    ∧ ∀ i (hi : i < (eventsToInsert true weeks baseDate f).length),
        (eventsToInsert true weeks baseDate f).get ⟨i, hi⟩
          = mkRow f (baseDate + 7 * (i : ℤ)) := by
  have hw : (if weeks = 0 then 1 else weeks) = weeks := by
    rw [if_neg]
    omega
  have hm : max 1 weeks = weeks := by omega
  constructor
  · simp [eventsToInsert, hw, hm]
  · intro i hi
    simp only [eventsToInsert, if_pos, hw, hm, List.get_eq_getElem,
      List.getElem_map, List.getElem_range]
    rw [addDays]
    congr 1
    ring

/-- A concrete recurring form: a weekly market series. -/
def exRecForm : EventForm :=
  { title := "Westside Farmers Market", location := "Santa Cruz",
    type := "market", client_name := none, client_email := none,
    client_phone := none, status := "booked", notes := none }

theorem recurring_batch_spec_witness :
    (eventsToInsert true 3 20000 exRecForm).length = (3 : ℤ).toNat :=
  (recurring_batch_spec 3 20000 exRecForm (by norm_num)).1

/-! ## Monthly goals (src/pages/Goals.tsx) -/

/-- A goal row as selected by the goals page. -/
structure Goal where
  id : String
  title : String
  month : String
  is_done : Bool
  notes : Option String
deriving DecidableEq

/-- The body of the accumulation loop in groupActiveByMonth for one active
goal: push onto the existing bucket for its month, or create that bucket. A
JS object with non-index string keys enumerates in insertion order, so the
map is modelled as an association list with new keys appended at the end. -/
def insertActive (m : List (String × List Goal)) (g : Goal) :
    List (String × List Goal) :=
  if m.any (fun p => p.1 == g.month) then
    m.map (fun p => if p.1 == g.month then (p.1, p.2 ++ [g]) else p)
  else
    m ++ [(g.month, [g])]

/-- One loop iteration of groupActiveByMonth: completed goals are skipped. -/
def goalStep (m : List (String × List Goal)) (g : Goal) :
    List (String × List Goal) :=
  if g.is_done then m else insertActive m g

/-- The map-building loop of groupActiveByMonth. -/
def buildActive (goals : List Goal) : List (String × List Goal) :=
  goals.foldl goalStep []

/-- Key order used by the final sort. The source comparator returns -1 when
the first key is smaller and 1 otherwise; on the distinct keys of the map it
is a strict total order, so the sort result is the unique ascending-by-key
ordering, modelled here by sorting with the reflexive closure. -/
def goalKeyLE (p q : String × List Goal) : Prop := p.1 ≤ q.1

instance : DecidableRel goalKeyLE := fun p q =>
  decidable_of_iff (p.1.toList ≤ q.1.toList) String.le_iff_toList_le.symm

instance : IsTotal (String × List Goal) goalKeyLE :=
  ⟨fun p q => le_total p.1 q.1⟩

instance : IsTrans (String × List Goal) goalKeyLE :=
  ⟨fun _ _ _ h h2 => le_trans h h2⟩

/-- groupActiveByMonth from the goals page: accumulate the active goals into
per-month buckets in insertion order, then sort the entries ascending by
month key. -/
def groupActiveByMonth (goals : List Goal) : List (String × List Goal) :=
  List.insertionSort goalKeyLE (buildActive goals)

/-- completedGoals from the goals page: the filter of done goals, unsorted
and ungrouped. -/
def completedGoals (goals : List Goal) : List Goal :=
  goals.filter (fun g => g.is_done)

/-- Membership of a bucket keyed by month m: active and of that month. -/
def bucketPred (m : String) (g : Goal) : Bool :=
  !g.is_done && g.month == m

/-- Loop invariant of the map-building fold: every bucket is the in-order
filter of the processed goals for its key, keys are distinct, every active
processed goal has its month among the keys, and every key arose from some
active processed goal. -/
structure MapInv (gs : List Goal) (m : List (String × List Goal)) : Prop where
  buckets : ∀ p ∈ m, p.2 = gs.filter (bucketPred p.1)
  nodupKeys : (m.map Prod.fst).Nodup
  cover : ∀ g ∈ gs, g.is_done = false → g.month ∈ m.map Prod.fst
  keysFrom : ∀ k ∈ m.map Prod.fst, ∃ g ∈ gs, g.is_done = false ∧ g.month = k

lemma any_key_eq (m : List (String × List Goal)) (s : String) :
    m.any (fun p => p.1 == s) = true ↔ s ∈ m.map Prod.fst := by
  simp [List.any_eq_true, List.mem_map]

lemma update_keys (m : List (String × List Goal)) (g : Goal) :
    ((m.map (fun p => if p.1 == g.month then (p.1, p.2 ++ [g]) else p)).map Prod.fst)
      = m.map Prod.fst := by
  rw [List.map_map]
  apply List.map_congr_left
  intro p _
  by_cases hpk : p.1 = g.month <;> simp [Function.comp, hpk]

lemma mapInv_goalStep {gs : List Goal} {m : List (String × List Goal)}
    (inv : MapInv gs m) (g : Goal) : MapInv (gs ++ [g]) (goalStep m g) := by
  by_cases hdone : g.is_done = true
  · rw [goalStep, if_pos hdone]
    refine ⟨?_, inv.nodupKeys, ?_, ?_⟩
    · intro p hp
      rw [inv.buckets p hp, List.filter_append]
      have hnil : List.filter (bucketPred p.1) [g] = [] := by
        simp [bucketPred, hdone]
      rw [hnil, List.append_nil]
    · intro g2 hg2 hact
      rcases List.mem_append.mp hg2 with h2 | h2
      · exact inv.cover g2 h2 hact
      · simp only [List.mem_singleton] at h2
        subst h2
        rw [hdone] at hact
        cases hact
    · intro k hk
      obtain ⟨g2, hg2, hact, hm2⟩ := inv.keysFrom k hk
      exact ⟨g2, List.mem_append_left _ hg2, hact, hm2⟩
  · have hact : g.is_done = false := by
      revert hdone
      cases g.is_done <;> simp
    rw [goalStep, if_neg hdone, insertActive]
    by_cases hkey : g.month ∈ m.map Prod.fst
    · rw [if_pos ((any_key_eq m g.month).mpr hkey)]
      refine ⟨?_, ?_, ?_, ?_⟩
      · intro p hp
        obtain ⟨q, hq, hqe⟩ := List.mem_map.mp hp
        by_cases hqk : q.1 = g.month
        · rw [if_pos (show (q.1 == g.month) = true by simp [hqk])] at hqe
          rw [← hqe]
          show q.2 ++ [g] = (gs ++ [g]).filter (bucketPred q.1)
          rw [inv.buckets q hq, List.filter_append]
          have hone : List.filter (bucketPred q.1) [g] = [g] := by
            simp [bucketPred, hact, hqk]
          rw [hone]
        · rw [if_neg (show ¬ ((q.1 == g.month) = true) by simp [hqk])] at hqe
          rw [← hqe]
          rw [inv.buckets q hq, List.filter_append]
          have hnil : List.filter (bucketPred q.1) [g] = [] := by
            have hne : ¬ (g.month = q.1) := fun he => hqk he.symm
            simp [bucketPred, hne]
          rw [hnil, List.append_nil]
      · rw [update_keys]
        exact inv.nodupKeys
      · intro g2 hg2 ha2
        rw [update_keys]
        rcases List.mem_append.mp hg2 with h2 | h2
        · exact inv.cover g2 h2 ha2
        · simp only [List.mem_singleton] at h2
          subst h2
          exact hkey
      · intro k hk
        rw [update_keys] at hk
        obtain ⟨g2, hg2, ha2, hm2⟩ := inv.keysFrom k hk
        exact ⟨g2, List.mem_append_left _ hg2, ha2, hm2⟩
    · rw [if_neg (fun hc => hkey ((any_key_eq m g.month).mp hc))]
      refine ⟨?_, ?_, ?_, ?_⟩
      · intro p hp
        rcases List.mem_append.mp hp with h2 | h2
        · have hpk : p.1 ∈ m.map Prod.fst := List.mem_map.mpr ⟨p, h2, rfl⟩
          have hne : ¬ (g.month = p.1) := by
            intro he
            rw [he] at hkey
            exact hkey hpk
          rw [inv.buckets p h2, List.filter_append]
          have hnil : List.filter (bucketPred p.1) [g] = [] := by
            simp [bucketPred, hne]
          rw [hnil, List.append_nil]
        · simp only [List.mem_singleton] at h2
          subst h2
          show [g] = (gs ++ [g]).filter (bucketPred g.month)
          rw [List.filter_append]
          have hnilgs : gs.filter (bucketPred g.month) = [] := by
            rw [List.filter_eq_nil_iff]
            intro a ha hba
            have hmem : a.month ∈ m.map Prod.fst := by
              apply inv.cover a ha
              simp [bucketPred] at hba
              exact hba.1
            simp [bucketPred] at hba
            rw [hba.2] at hmem
            exact hkey hmem
          have hone : List.filter (bucketPred g.month) [g] = [g] := by
            simp [bucketPred, hact]
          rw [hnilgs, hone, List.nil_append]
      · rw [List.map_append]
        rw [List.nodup_append]
        refine ⟨inv.nodupKeys, by simp, ?_⟩
        simp only [List.map_cons, List.map_nil]
        intro a hma hsing
        simp only [List.mem_singleton] at hsing
        subst hsing
        exact hkey hma
      · intro g2 hg2 ha2
        rw [List.map_append]
        rcases List.mem_append.mp hg2 with h2 | h2
        · exact List.mem_append_left _ (inv.cover g2 h2 ha2)
        · simp only [List.mem_singleton] at h2
          subst h2
          apply List.mem_append_right
          simp
      · intro k hk
        rw [List.map_append] at hk
        rcases List.mem_append.mp hk with h2 | h2
        · obtain ⟨g2, hg2, ha2, hm2⟩ := inv.keysFrom k h2
          exact ⟨g2, List.mem_append_left _ hg2, ha2, hm2⟩
        · simp only [List.map_cons, List.map_nil, List.mem_singleton] at h2
          subst h2
          exact ⟨g, List.mem_append_right _ (by simp), hact, rfl⟩

lemma mapInv_foldl :
    ∀ (gs : List Goal) (pre : List Goal) (m : List (String × List Goal)),
      MapInv pre m → MapInv (pre ++ gs) (gs.foldl goalStep m)
  | [], pre, m, inv => by simpa using inv
  | g :: gs, pre, m, inv => by
      have h2 := mapInv_foldl gs (pre ++ [g]) (goalStep m g) (mapInv_goalStep inv g)
      rw [List.foldl_cons]
      have he : pre ++ g :: gs = (pre ++ [g]) ++ gs := by simp
      rw [he]
      exact h2

lemma mapInv_buildActive (goals : List Goal) : MapInv goals (buildActive goals) := by
  have h := mapInv_foldl goals [] [] ⟨by simp, by simp, by simp, by simp⟩
  simpa [buildActive] using h

lemma group_perm_build (goals : List Goal) :
    (groupActiveByMonth goals).Perm (buildActive goals) :=
  List.perm_insertionSort goalKeyLE (buildActive goals)

lemma mapInv_group (goals : List Goal) :
    MapInv goals (groupActiveByMonth goals) := by
  have inv := mapInv_buildActive goals
  have hp := group_perm_build goals
  have hkp : ((groupActiveByMonth goals).map Prod.fst).Perm
      ((buildActive goals).map Prod.fst) := hp.map Prod.fst
  refine ⟨?_, ?_, ?_, ?_⟩
  · intro p hpmem
    exact inv.buckets p (hp.mem_iff.mp hpmem)
  · exact hkp.nodup_iff.mpr inv.nodupKeys
  · intro g hg ha
    exact hkp.mem_iff.mpr (inv.cover g hg ha)
  · intro k hk
    exact inv.keysFrom k (hkp.mem_iff.mp hk)

lemma group_keys_sorted (goals : List Goal) :
    ((groupActiveByMonth goals).map Prod.fst).Sorted (fun a b : String => a < b) := by
  have hs : (groupActiveByMonth goals).Sorted goalKeyLE :=
    List.sorted_insertionSort goalKeyLE (buildActive goals)
  have hn := (mapInv_group goals).nodupKeys
  show ((groupActiveByMonth goals).map Prod.fst).Pairwise (fun a b : String => a < b)
  rw [List.pairwise_map]
  have hne : (groupActiveByMonth goals).Pairwise (fun p q => p.1 ≠ q.1) := by
    have := hn
    rw [List.Nodup, List.pairwise_map] at this
    exact this
  have hle : (groupActiveByMonth goals).Pairwise (fun p q => p.1 ≤ q.1) := hs
  exact (hle.and hne).imp (fun hab => lt_of_le_of_ne hab.1 hab.2)

/-- Spec Example 4, goal one: active goal in March 2025. -/
def exGoalMarch : Goal :=
  { id := "g1", title := "march goal", month := "2025-03",
    is_done := false, notes := none }

/-- Spec Example 4, goal two: active goal in January 2025. -/
def exGoalJan : Goal :=
  { id := "g2", title := "january goal", month := "2025-01",
    is_done := false, notes := none }

/-- Spec Example 4, goal three: completed goal in January 2025. -/
def exGoalJanDone : Goal :=
  { id := "g3", title := "done goal", month := "2025-01",
    is_done := true, notes := none }

/-- The spec Example 4 input list. -/
def exGoals : List Goal := [exGoalMarch, exGoalJan, exGoalJanDone]

/-- C5: every bucket of groupActiveByMonth equals the insertion-ordered
filter of the input restricted to active goals of the bucket's month; bucket
keys are strictly ascending in lexicographic month order; the keys are
exactly the months of active goals; and the spec Example 4 input yields the
buckets for 2025-01 and 2025-03 in ascending order, one goal each. -/
theorem groupActiveByMonth_spec (goals : List Goal) :
    (∀ mo b, (mo, b) ∈ groupActiveByMonth goals →
        b = goals.filter (fun g => !g.is_done && g.month == mo))
    ∧ ((groupActiveByMonth goals).map Prod.fst).Sorted (fun a b : String => a < b)
    ∧ (∀ mo, mo ∈ (groupActiveByMonth goals).map Prod.fst ↔
        ∃ g ∈ goals, g.is_done = false ∧ g.month = mo)
    ∧ groupActiveByMonth exGoals
        = [("2025-01", [exGoalJan]), ("2025-03", [exGoalMarch])] := by
  refine ⟨?_, group_keys_sorted goals, ?_, by decide⟩
  · intro mo b hmem
    exact (mapInv_group goals).buckets (mo, b) hmem
  · intro mo
    constructor
    · exact (mapInv_group goals).keysFrom mo
    · rintro ⟨g, hg, ha, rfl⟩
      exact (mapInv_group goals).cover g hg ha

theorem groupActiveByMonth_spec_witness :
    [exGoalJan] = exGoals.filter (fun g => !g.is_done && g.month == "2025-01") :=
  (groupActiveByMonth_spec exGoals).1 "2025-01" [exGoalJan] (by decide)

lemma flatten_month_filter_perm :
    ∀ (keys : List String) (l : List Goal), keys.Nodup →
      (∀ g ∈ l, g.month ∈ keys) →
      ((keys.map (fun k => l.filter (fun g => g.month == k))).flatten).Perm l
  | [], l, _, hcov => by
      have hnil : l = [] := by
        cases l with
        | nil => rfl
        | cons a l2 => exact absurd (hcov a (by simp)) (by simp)
      simp [hnil]
  | k :: ks, l, hnd, hcov => by
      rw [List.map_cons, List.flatten_cons]
      have hknotmem : k ∉ ks := (List.nodup_cons.mp hnd).1
      have hndks : ks.Nodup := (List.nodup_cons.mp hnd).2
      have hrest : ∀ k2 ∈ ks,
          l.filter (fun g => g.month == k2)
            = (l.filter (fun g => !(g.month == k))).filter (fun g => g.month == k2) := by
        intro k2 hk2
        rw [List.filter_filter]
        apply List.filter_congr
        intro g _
        by_cases hgm : g.month = k2
        · have hk2k : ¬ (k2 = k) := by
            rintro rfl
            exact hknotmem hk2
          simp [hgm, hk2k]
        · simp [hgm]
      rw [List.map_congr_left hrest]
      have hcov2 : ∀ g ∈ l.filter (fun g => !(g.month == k)), g.month ∈ ks := by
        intro g hg
        rw [List.mem_filter] at hg
        have h1 := hcov g hg.1
        have h2 : g.month ≠ k := by
          intro he
          have h3 := hg.2
          rw [he] at h3
          simp at h3
        rcases List.mem_cons.mp h1 with h | h
        · exact absurd h h2
        · exact h
      have ih := flatten_month_filter_perm ks (l.filter (fun g => !(g.month == k)))
        hndks hcov2
      refine (List.Perm.append_left _ ih).trans ?_
      exact List.filter_append_perm _ l

lemma active_completed_perm (goals : List Goal) :
    (goals.filter (fun g => !g.is_done) ++ completedGoals goals).Perm goals := by
  have h := List.filter_append_perm (fun g => !g.is_done) goals
  simp only [Bool.not_not] at h
  exact h

/-- C6: every goal in a bucket of groupActiveByMonth is active; flattening
all buckets and appending completedGoals is a permutation of the whole input,
so the two parts partition it; no goal value lies in both parts; and
completedGoals is exactly the filter of done goals. -/
theorem goals_partition_spec (goals : List Goal) :
    (∀ p ∈ groupActiveByMonth goals, ∀ g ∈ p.2, g.is_done = false)
    ∧ (((groupActiveByMonth goals).map Prod.snd).flatten
        ++ completedGoals goals).Perm goals
    ∧ (∀ g ∈ ((groupActiveByMonth goals).map Prod.snd).flatten,
        g ∉ completedGoals goals)
    ∧ completedGoals goals = goals.filter (fun g => g.is_done) := by
  have inv := mapInv_group goals
  have ha : ∀ p ∈ groupActiveByMonth goals, ∀ g ∈ p.2, g.is_done = false := by
    intro p hp g hg
    rw [inv.buckets p hp, List.mem_filter] at hg
    have h2 := hg.2
    simp [bucketPred] at h2
    exact h2.1
  have hmaps : (groupActiveByMonth goals).map Prod.snd
      = ((groupActiveByMonth goals).map Prod.fst).map
          (fun k => (goals.filter (fun g => !g.is_done)).filter
            (fun g => g.month == k)) := by
    rw [List.map_map]
    apply List.map_congr_left
    intro p hp
    show p.2 = (goals.filter (fun g => !g.is_done)).filter (fun g => g.month == p.1)
    rw [inv.buckets p hp, List.filter_filter]
    apply List.filter_congr
    intro g _
    simp [bucketPred, Bool.and_comm]
  have hcover : ∀ g ∈ goals.filter (fun g => !g.is_done),
      g.month ∈ (groupActiveByMonth goals).map Prod.fst := by
    intro g hg
    rw [List.mem_filter] at hg
    refine inv.cover g hg.1 ?_
    have h2 := hg.2
    simp at h2
    exact h2
  have hperm := flatten_month_filter_perm ((groupActiveByMonth goals).map Prod.fst)
    (goals.filter (fun g => !g.is_done)) inv.nodupKeys hcover
  refine ⟨ha, ?_, ?_, rfl⟩
  · rw [hmaps]
    exact (hperm.append_right _).trans (active_completed_perm goals)
  · intro g hg hcomp
    rw [List.mem_flatten] at hg
    obtain ⟨b, hb, hgb⟩ := hg
    obtain ⟨p, hp, hpb⟩ := List.mem_map.mp hb
    rw [← hpb] at hgb
    have hactive := ha p hp g hgb
    rw [completedGoals, List.mem_filter] at hcomp
    rw [hactive] at hcomp
    exact absurd hcomp.2 (by simp)

theorem goals_partition_spec_witness :
    exGoalJan ∉ completedGoals exGoals :=
  (goals_partition_spec exGoals).2.2.1 exGoalJan (by decide)
